import Mathlib

/-!
Verification of the contract ABI module (`ir_cli/src/abi/mod.rs`):
the typed value parser `input_type_to_abi_param`, the encoding driver
`encode_params`, the metadata builder `from_contract`, method lookup
`get_method`, and JSON (de)serialization `to_json` / `from_json`.

Rust strings are modelled as Lean `String` (slicing positions are taken at
character granularity); Rust `Result` values that the code may additionally
`unwrap` (aborting the process) are modelled by the three-valued `PResult`,
whose `panic` constructor records that the call aborts rather than returning.
-/

namespace Abi

/-- Outcome of a Rust computation that can return a value, return an error
string, or abort the process with a panic (e.g. via `Result::unwrap` on an
error, or an out-of-bounds string slice). -/
inductive PResult (α : Type) where
  | ok : α → PResult α
  | err : String → PResult α
  | panic : PResult α
deriving DecidableEq, Repr

/-- Splits a character list at every occurrence of `c`, Rust `str::split`
semantics: the result is never empty, and the empty input yields `[[]]`. -/
def splitOnChar (c : Char) : List Char → List (List Char)
  | [] => [[]]
  | x :: rest =>
    match splitOnChar c rest with
    | [] => [[]]
    | h :: t => if x = c then [] :: h :: t else (x :: h) :: t

/-- Rust slice `l[a..b]` at character granularity: defined when `a ≤ b ≤ len`,
otherwise the slice panics (modelled by `none`). -/
def strSliceL (l : List Char) (a b : Nat) : Option (List Char) :=
  if a ≤ b ∧ b ≤ l.length then some ((l.drop a).take (b - a)) else none

/-- Accumulating digit loop of Rust `from_str_radix` for an unsigned type with
maximum value `hi`: per-step overflow check, first non-digit rejects. -/
def uintDigits (hi : Nat) : Nat → List Char → Except String Nat
  | acc, [] => .ok acc
  | acc, c :: cs =>
    if c.isDigit then
      let acc' := acc * 10 + (c.toNat - 48)
      if acc' > hi then .error "number too large to fit in target type"
      else uintDigits hi acc' cs
    else .error "invalid digit found in string"

/-- Rust `uN::from_str` (base 10): optional leading `+`; `-` is not accepted
for unsigned types and surfaces as an invalid digit. -/
def parseUIntStr (hi : Nat) (s : List Char) : Except String Nat :=
  match s with
  | [] => .error "cannot parse integer from empty string"
  | ['+'] => .error "invalid digit found in string"
  | ['-'] => .error "invalid digit found in string"
  | '+' :: rest => uintDigits hi 0 rest
  | ds => uintDigits hi 0 ds

/-- Positive digit loop of Rust `iN::from_str` with maximum value `hi`. -/
def intPosDigits (hi : Int) : Int → List Char → Except String Int
  | acc, [] => .ok acc
  | acc, c :: cs =>
    if c.isDigit then
      let acc' := acc * 10 + (c.toNat - 48 : Nat)
      if acc' > hi then .error "number too large to fit in target type"
      else intPosDigits hi acc' cs
    else .error "invalid digit found in string"

/-- Negative digit loop of Rust `iN::from_str` with minimum value `lo`. -/
def intNegDigits (lo : Int) : Int → List Char → Except String Int
  | acc, [] => .ok acc
  | acc, c :: cs =>
    if c.isDigit then
      let acc' := acc * 10 - (c.toNat - 48 : Nat)
      if acc' < lo then .error "number too small to fit in target type"
      else intNegDigits lo acc' cs
    else .error "invalid digit found in string"

/-- Rust `iN::from_str` (base 10) for the signed range `[lo, hi]`. -/
def parseIntStr (lo hi : Int) (s : List Char) : Except String Int :=
  match s with
  | [] => .error "cannot parse integer from empty string"
  | ['+'] => .error "invalid digit found in string"
  | ['-'] => .error "invalid digit found in string"
  | '+' :: rest => intPosDigits hi 0 rest
  | '-' :: rest => intNegDigits lo 0 rest
  | ds => intPosDigits hi 0 ds

/-- Rust `bool::from_str`: exactly `"true"` or `"false"`, anything else is an
error (strict, unlike the permissive scalar-bool rule of the parser itself). -/
def parseBoolStr (s : List Char) : Except String Bool :=
  if s = "true".toList then .ok true
  else if s = "false".toList then .ok false
  else .error "provided string was not `true` or `false`"

/-- Value of a hexadecimal digit character, if it is one. -/
def hexVal? (c : Char) : Option Nat :=
  if '0' ≤ c ∧ c ≤ '9' then some (c.toNat - '0'.toNat)
  else if 'a' ≤ c ∧ c ≤ 'f' then some (c.toNat - 'a'.toNat + 10)
  else if 'A' ≤ c ∧ c ≤ 'F' then some (c.toNat - 'A'.toNat + 10)
  else none

/-- Pairwise byte assembly of `hex::decode` (called on even-length input). -/
def hexDecodeCore : List Char → Except String (List Nat)
  | [] => .ok []
  | [_] => .error "Odd number of digits"
  | a :: b :: rest =>
    match hexVal? a, hexVal? b with
    | some x, some y =>
      match hexDecodeCore rest with
      | .ok t => .ok ((x * 16 + y) :: t)
      | .error e => .error e
    | _, _ => .error "Invalid character"

/-- External crate behavior, modelled: `hex::decode` checks the length parity
first (`Odd number of digits`), then rejects the first non-hex character. -/
def hex_decode (s : List Char) : Except String (List Nat) :=
  if s.length % 2 ≠ 0 then .error "Odd number of digits" else hexDecodeCore s

/-- The tagged typed value produced by the parser. External type
`smart_ir::abi::params::ABIParam`, modelled with the constructors that
`ir_cli`'s parser constructs; fixed-width integers are carried as `Nat`/`Int`
(the parsers only ever produce in-range values), and `HashMap<String, _>` is
carried as an association list whose logical content is the map. -/
inductive ABIParam where
  | Bool : Bool → ABIParam
  | Str : String → ABIParam
  | Parampack : List Nat → ABIParam
  | U8 : Nat → ABIParam
  | I8 : Int → ABIParam
  | U16 : Nat → ABIParam
  | I16 : Int → ABIParam
  | U32 : Nat → ABIParam
  | I32 : Int → ABIParam
  | U64 : Nat → ABIParam
  | I64 : Int → ABIParam
  | U128 : Nat → ABIParam
  | I128 : Int → ABIParam
  | BoolArray : List Bool → ABIParam
  | StrArray : List String → ABIParam
  | I8Array : List Int → ABIParam
  | U8Array : List Nat → ABIParam
  | I16Array : List Int → ABIParam
  | U16Array : List Nat → ABIParam
  | I32Array : List Int → ABIParam
  | U32Array : List Nat → ABIParam
  | I64Array : List Int → ABIParam
  | U64Array : List Nat → ABIParam
  | I128Array : List Int → ABIParam
  | U128Array : List Nat → ABIParam
  | StrBoolMap : List (String × Bool) → ABIParam
  | StrStrMap : List (String × String) → ABIParam
  | StrI8Map : List (String × Int) → ABIParam
  | StrU8Map : List (String × Nat) → ABIParam
  | StrI16Map : List (String × Int) → ABIParam
  | StrU16Map : List (String × Nat) → ABIParam
  | StrI32Map : List (String × Int) → ABIParam
  | StrU32Map : List (String × Nat) → ABIParam
  | StrI64Map : List (String × Int) → ABIParam
  | StrU64Map : List (String × Nat) → ABIParam
  | StrI128Map : List (String × Int) → ABIParam
  | StrU128Map : List (String × Nat) → ABIParam
deriving DecidableEq, Repr

/-- `HashMap::insert` on the association-list model: overwrite the value of an
existing key in place, else append the new binding. Last write wins. -/
def mapInsert {β : Type} (m : List (String × β)) (k : String) (v : β) :
    List (String × β) :=
  if m.any (fun p => p.1 = k) then m.map (fun p => if p.1 = k then (k, v) else p)
  else m ++ [(k, v)]

/-- The per-element loop of the array branches: each piece is parsed with the
element parser and the parse `Result` is immediately `unwrap`ped, so the first
failing element aborts with a panic rather than returning an error. -/
def arrayElems {β : Type} (pe : List Char → Except String β) :
    List (List Char) → PResult (List β)
  | [] => .ok []
  | x :: xs =>
    match pe x with
    | .error _ => .panic
    | .ok v =>
      match arrayElems pe xs with
      | .ok vs => .ok (v :: vs)
      | .err e => .err e
      | .panic => .panic

/-- The pair-collection loop of the map branch: each comma-piece is split on
`:`; fewer than two pieces is the invalid-map-entry error, and only the first
two pieces are kept as key and value. -/
def collectPairs : List (List Char) → Except String (List (List Char) × List (List Char))
  | [] => .ok ([], [])
  | p :: rest =>
    match splitOnChar ':' p with
    | k :: v :: _ =>
      match collectPairs rest with
      | .ok (ks, vs) => .ok (k :: ks, v :: vs)
      | .error e => .error e
    | _ => .error "invalid map entry, expected k1:v1,k2:v2,..."

/-- The per-entry loop of the map branches: parse each value (the parse
`Result` is `unwrap`ped, so a failing value panics) and insert it under its
key, in pair order, so a duplicate key keeps the later value. -/
def mapEntries {β : Type} (pe : List Char → Except String β) :
    List (String × β) → List (List Char) → List (List Char) → PResult (List (String × β))
  | acc, [], _ => .ok acc
  | _, _ :: _, [] => .panic
  | acc, k :: ks, v :: vs =>
    match pe v with
    | .error _ => .panic
    | .ok x => mapEntries pe (mapInsert acc (String.mk k) x) ks vs

/-- Lifts an element-level outcome into an `ABIParam`-level outcome. -/
def liftP {β : Type} (r : PResult β) (mk : β → ABIParam) : PResult ABIParam :=
  match r with
  | .ok v => .ok (mk v)
  | .err e => .err e
  | .panic => .panic

/-- Lifts a scalar parse `Result` (whose error the source returns, not
unwraps) into an `ABIParam`-level outcome. -/
def liftE {β : Type} (r : Except String β) (mk : β → ABIParam) : PResult ABIParam :=
  match r with
  | .ok v => .ok (mk v)
  | .error e => .err e

/-- Dispatch on the array element type name (the body of the `[` branch,
after slicing out the inner name and splitting the token on `,`). -/
def arrayBranch (inner : String) (pieces : List (List Char)) : PResult ABIParam :=
  match inner with
  | "bool" => liftP (arrayElems parseBoolStr pieces) ABIParam.BoolArray
  | "str" => liftP (arrayElems (fun l => .ok (String.mk l)) pieces) ABIParam.StrArray
  | "string" => liftP (arrayElems (fun l => .ok (String.mk l)) pieces) ABIParam.StrArray
  | "i8" => liftP (arrayElems (parseIntStr (-128) 127) pieces) ABIParam.I8Array
  | "u8" => liftP (arrayElems (parseUIntStr 255) pieces) ABIParam.U8Array
  | "i16" => liftP (arrayElems (parseIntStr (-32768) 32767) pieces) ABIParam.I16Array
  | "u16" => liftP (arrayElems (parseUIntStr 65535) pieces) ABIParam.U16Array
  | "i32" => liftP (arrayElems (parseIntStr (-(2 ^ 31)) (2 ^ 31 - 1)) pieces) ABIParam.I32Array
  | "u32" => liftP (arrayElems (parseUIntStr (2 ^ 32 - 1)) pieces) ABIParam.U32Array
  | "i64" => liftP (arrayElems (parseIntStr (-(2 ^ 63)) (2 ^ 63 - 1)) pieces) ABIParam.I64Array
  | "u64" => liftP (arrayElems (parseUIntStr (2 ^ 64 - 1)) pieces) ABIParam.U64Array
  | "i128" => liftP (arrayElems (parseIntStr (-(2 ^ 127)) (2 ^ 127 - 1)) pieces) ABIParam.I128Array
  | "u128" => liftP (arrayElems (parseUIntStr (2 ^ 128 - 1)) pieces) ABIParam.U128Array
  | _ => .err "not supported input param type"

/-- Dispatch on the map value type name (the body of the `\x7b` branch, after
the pairs have been collected and validated). -/
def mapBranch (inner : String) (ks vs : List (List Char)) : PResult ABIParam :=
  match inner with
  | "bool" => liftP (mapEntries parseBoolStr [] ks vs) ABIParam.StrBoolMap
  | "str" => liftP (mapEntries (fun l => .ok (String.mk l)) [] ks vs) ABIParam.StrStrMap
  | "string" => liftP (mapEntries (fun l => .ok (String.mk l)) [] ks vs) ABIParam.StrStrMap
  | "i8" => liftP (mapEntries (parseIntStr (-128) 127) [] ks vs) ABIParam.StrI8Map
  | "u8" => liftP (mapEntries (parseUIntStr 255) [] ks vs) ABIParam.StrU8Map
  | "i16" => liftP (mapEntries (parseIntStr (-32768) 32767) [] ks vs) ABIParam.StrI16Map
  | "u16" => liftP (mapEntries (parseUIntStr 65535) [] ks vs) ABIParam.StrU16Map
  | "i32" => liftP (mapEntries (parseIntStr (-(2 ^ 31)) (2 ^ 31 - 1)) [] ks vs) ABIParam.StrI32Map
  | "u32" => liftP (mapEntries (parseUIntStr (2 ^ 32 - 1)) [] ks vs) ABIParam.StrU32Map
  | "i64" => liftP (mapEntries (parseIntStr (-(2 ^ 63)) (2 ^ 63 - 1)) [] ks vs) ABIParam.StrI64Map
  | "u64" => liftP (mapEntries (parseUIntStr (2 ^ 64 - 1)) [] ks vs) ABIParam.StrU64Map
  | "i128" => liftP (mapEntries (parseIntStr (-(2 ^ 127)) (2 ^ 127 - 1)) [] ks vs) ABIParam.StrI128Map
  | "u128" => liftP (mapEntries (parseUIntStr (2 ^ 128 - 1)) [] ks vs) ABIParam.StrU128Map
  | _ => .err ("not supported input param type " ++ inner)

/-- Embedding of `input_type_to_abi_param` (ir_cli/src/abi/mod.rs): dispatch
on the type-name string, then for `[`-prefixed names slice out the element
type (`name[1..len-1]`, panicking if the slice is out of range) and parse the
comma-split pieces; for `\x7b`-prefixed names locate the first `:`, slice out
the value type (`name[sep+1..len-1]`, panicking if out of range), validate
the comma-split `k:v` pairs, and parse the values into a map. -/
def input_type_to_abi_param (input_type_name : String) (param_str : String) :
    PResult ABIParam :=
  match input_type_name with
  | "bool" => .ok (.Bool (param_str == "true"))
  | "str" => .ok (.Str param_str)
  | "string" => .ok (.Str param_str)
  | "parampack" => liftE (hex_decode param_str.toList) ABIParam.Parampack
  | "u8" => liftE (parseUIntStr 255 param_str.toList) ABIParam.U8
  | "i8" => liftE (parseIntStr (-128) 127 param_str.toList) ABIParam.I8
  | "u16" => liftE (parseUIntStr 65535 param_str.toList) ABIParam.U16
  | "i16" => liftE (parseIntStr (-32768) 32767 param_str.toList) ABIParam.I16
  | "u32" => liftE (parseUIntStr (2 ^ 32 - 1) param_str.toList) ABIParam.U32
  | "i32" => liftE (parseIntStr (-(2 ^ 31)) (2 ^ 31 - 1) param_str.toList) ABIParam.I32
  | "u64" => liftE (parseUIntStr (2 ^ 64 - 1) param_str.toList) ABIParam.U64
  | "i64" => liftE (parseIntStr (-(2 ^ 63)) (2 ^ 63 - 1) param_str.toList) ABIParam.I64
  | "u128" => liftE (parseUIntStr (2 ^ 128 - 1) param_str.toList) ABIParam.U128
  | "i128" => liftE (parseIntStr (-(2 ^ 127)) (2 ^ 127 - 1) param_str.toList) ABIParam.I128
  | t =>
    let tl := t.toList
    if tl.head? = some '[' then
      match strSliceL tl 1 (tl.length - 1) with
      | none => .panic
      | some inner => arrayBranch (String.mk inner) (splitOnChar ',' param_str.toList)
    else if tl.head? = some '{' then
      match List.findIdx? (fun c => c = ':') tl with
      | none => .err "not supported map param type"
      | some sep =>
        match strSliceL tl (sep + 1) (tl.length - 1) with
        | none => .panic
        | some inner =>
          match collectPairs (splitOnChar ',' param_str.toList) with
          | .error e => .err e
          | .ok (ks, vs) => mapBranch (String.mk inner) ks vs
    else .err ("not supported abi param type " ++ t)

/-- Meta info of a contract method input (`IRContractMethodInputMeta`). -/
structure IRContractMethodInputMeta where
  name : String
  type : String
deriving DecidableEq, Repr

/-- Meta info of a contract method output (`IRContractMethodOutputMeta`). -/
structure IRContractMethodOutputMeta where
  type : String
deriving DecidableEq, Repr

/-- A method meta info in the contract (`IRContractMethodMeta`): `type` is
either `"constructor"` or `"function"`. -/
structure IRContractMethodMeta where
  name : String
  type : String
  inputs : List IRContractMethodInputMeta
  outputs : List IRContractMethodOutputMeta
deriving DecidableEq, Repr

/-- The contract meta information (`IRContractABIMeta`). -/
structure IRContractABIMeta where
  abi_version : Nat
  methods : List IRContractMethodMeta
deriving DecidableEq, Repr

/-- Shape of an auxiliary named-constant description (`IRConstantMeta`). -/
structure IRConstantMeta where
  type : String
  data : String
  readable : String
deriving DecidableEq, Repr

def CURRENT_IR_ABI_VERSION : Nat := 1

/-- The parameter-encoding loop of `encode_params`: parse each token against
the matching input's declared type and append the external byte encoding
`enc` of the typed value; the first parse error (or panic) aborts. -/
def encodeLoop (enc : ABIParam → List Nat) :
    List (IRContractMethodInputMeta × String) → PResult (List Nat)
  | [] => .ok []
  | (inp, s) :: rest =>
    match input_type_to_abi_param inp.type s with
    | .panic => .panic
    | .err e => .err e
    | .ok v =>
      match encodeLoop enc rest with
      | .ok bs => .ok (enc v ++ bs)
      | .err e => .err e
      | .panic => .panic

/-- Embedding of `IRContractMethodMeta::encode_params`: reject a token count
different from the declared input count, then emit the version byte `0x00`
followed by each parameter's encoding in declaration order. The external
typed-value byte encoder is the explicit argument `enc`. -/
def IRContractMethodMeta.encode_params (enc : ABIParam → List Nat)
    (m : IRContractMethodMeta) (params_strings : List String) : PResult (List Nat) :=
  if m.inputs.length ≠ params_strings.length then .err "params count not match"
  else
    match encodeLoop enc (m.inputs.zip params_strings) with
    | .ok bs => .ok (0x00 :: bs)
    | .err e => .err e
    | .panic => .panic

/-- Modelled from the spec: the external compiled-program function table (§6)
exposes, per function, a return type with an `is_void` test and a stable
textual representation (`smart_ir::ir::cfg` is not part of this crate). -/
structure RetType where
  is_void : Bool
  type_str : String
deriving DecidableEq, Repr

/-- Modelled from the spec: a function definition exposing an ordered list of
parameter types by their textual representation, and a return type. -/
structure FunctionDef where
  params : List String
  ret : RetType
deriving DecidableEq, Repr

/-- Modelled from the spec: a compiled contract's function table, an ordered
mapping from qualified function name to definition (the list order is the
table's iteration order, which the source does not otherwise constrain). -/
structure Contract where
  functions : List (String × FunctionDef)
deriving DecidableEq, Repr

/-- Index of the last occurrence of `c` (`str::rfind` at character
granularity). -/
def lastIdxOf (c : Char) : List Char → Option Nat
  | [] => none
  | x :: xs =>
    match lastIdxOf c xs with
    | some j => some (j + 1)
    | none => if x = c then some 0 else none

/-- The name derivation of `from_contract`: the substring after the last `.`
of the qualified name (`func_name[(last_dot_pos + 1)..len]`), or the whole
name when it has no `.`. -/
def abiNameOf (func_name : String) : String :=
  match lastIdxOf '.' func_name.toList with
  | some p => String.mk (func_name.toList.drop (p + 1))
  | none => func_name

/-- The loop body of `IRContractABIMeta::from_contract`: one method meta per
function — empty parameter names, textual parameter types, zero outputs for a
void return and one otherwise, de-namespaced name, and kind `"constructor"`
exactly for the derived name `"init"`. -/
def methodOfFunc (func_name : String) (fd : FunctionDef) : IRContractMethodMeta :=
  let inputs := fd.params.map (fun p => { name := "", type := p : IRContractMethodInputMeta })
  let outputs := if fd.ret.is_void then [] else [{ type := fd.ret.type_str : IRContractMethodOutputMeta }]
  let abi_name := abiNameOf func_name
  { name := abi_name
    type := if abi_name = "init" then "constructor" else "function"
    inputs := inputs
    outputs := outputs }

/-- Embedding of `IRContractABIMeta::from_contract`. -/
def IRContractABIMeta.from_contract (c : Contract) : IRContractABIMeta :=
  { abi_version := CURRENT_IR_ABI_VERSION
    methods := c.functions.map (fun p => methodOfFunc p.1 p.2) }

/-- Embedding of `IRContractABIMeta::get_method`: linear scan for the first
method whose name equals the queried name. -/
def IRContractABIMeta.get_method (meta : IRContractABIMeta)
    (abi_method_name : String) : Option IRContractMethodMeta :=
  meta.methods.find? (fun m => m.name == abi_method_name)

/-- Modelled from the spec: the structural JSON values underlying the external
text (de)serialization collaborator (§6). The pretty-printed text form is
specified there as a lossless rendering of this structure, so the text layer
is identified with the structure itself. -/
inductive Json where
  | null : Json
  | bool : Bool → Json
  | num : Int → Json
  | str : String → Json
  | arr : List Json → Json
  | obj : List (String × Json) → Json

/-- First value stored under key `k` (serde reads struct fields by name). -/
def jField (fields : List (String × Json)) (k : String) : Option Json :=
  match fields with
  | [] => none
  | (k', v) :: rest => if k' = k then some v else jField rest k

/-- Decodes every element of a JSON array, failing if any element fails. -/
def decodeList {α : Type} (f : Json → Option α) : List Json → Option (List α)
  | [] => some []
  | x :: xs =>
    match f x with
    | none => none
    | some v =>
      match decodeList f xs with
      | none => none
      | some vs => some (v :: vs)

/-- Modelled from the spec: the derived serde serialization of
`IRContractMethodInputMeta` — an object with the struct's fields in order. -/
def inputToJson (i : IRContractMethodInputMeta) : Json :=
  .obj [("name", .str i.name), ("type", .str i.type)]

/-- Modelled from the spec: the derived serde deserialization of
`IRContractMethodInputMeta`; a missing or wrongly typed field fails. -/
def inputFromJson? : Json → Option IRContractMethodInputMeta
  | .obj fs =>
    match jField fs "name", jField fs "type" with
    | some (.str n), some (.str t) => some ⟨n, t⟩
    | _, _ => none
  | _ => none

/-- Modelled from the spec: the derived serde serialization of
`IRContractMethodOutputMeta`. -/
def outputToJson (o : IRContractMethodOutputMeta) : Json :=
  .obj [("type", .str o.type)]

/-- Modelled from the spec: the derived serde deserialization of
`IRContractMethodOutputMeta`. -/
def outputFromJson? : Json → Option IRContractMethodOutputMeta
  | .obj fs =>
    match jField fs "type" with
    | some (.str t) => some ⟨t⟩
    | _ => none
  | _ => none

/-- Modelled from the spec: the derived serde serialization of
`IRContractMethodMeta`. -/
def methodToJson (m : IRContractMethodMeta) : Json :=
  .obj [("name", .str m.name), ("type", .str m.type),
        ("inputs", .arr (m.inputs.map inputToJson)),
        ("outputs", .arr (m.outputs.map outputToJson))]

/-- Modelled from the spec: the derived serde deserialization of
`IRContractMethodMeta`. -/
def methodFromJson? : Json → Option IRContractMethodMeta
  | .obj fs =>
    match jField fs "name", jField fs "type", jField fs "inputs", jField fs "outputs" with
    | some (.str n), some (.str t), some (.arr li), some (.arr lo) =>
      match decodeList inputFromJson? li, decodeList outputFromJson? lo with
      | some li', some lo' => some ⟨n, t, li', lo'⟩
      | _, _ => none
    | _, _, _, _ => none
  | _ => none

/-- Modelled from the spec: the derived serde deserialization of
`IRContractABIMeta`; `abi_version` is a `u16`, so a number outside
`[0, 65536)` is rejected. -/
def metaFromJson? : Json → Option IRContractABIMeta
  | .obj fs =>
    match jField fs "abi_version", jField fs "methods" with
    | some (.num v), some (.arr ms) =>
      if 0 ≤ v ∧ v < 65536 then
        match decodeList methodFromJson? ms with
        | some ms' => some ⟨v.toNat, ms'⟩
        | none => none
      else none
    | _, _ => none
  | _ => none

/-- Embedding of `IRContractABIMeta::to_json`: serialization of these structs
cannot fail, so the source's `unwrap` never panics and the function is total. -/
def IRContractABIMeta.to_json (meta : IRContractABIMeta) : Json :=
  .obj [("abi_version", .num meta.abi_version),
        ("methods", .arr (meta.methods.map methodToJson))]

/-- Embedding of `IRContractABIMeta::from_json`: the deserialization `Result`
is `unwrap`ped, so malformed input panics instead of returning an error. -/
def IRContractABIMeta.from_json (j : Json) : PResult IRContractABIMeta :=
  match metaFromJson? j with
  | some m => .ok m
  | none => .panic

/-- First `:`-separated piece of a map pair — the key the code keeps
(`splited[0]`). -/
def pairKey (p : List Char) : List Char :=
  match splitOnChar ':' p with
  | k :: _ => k
  | [] => []

/-- Second `:`-separated piece of a map pair — the value the code keeps
(`splited[1]`); pieces after the second are ignored. -/
def pairVal (p : List Char) : List Char :=
  match splitOnChar ':' p with
  | _ :: v :: _ => v
  | _ => []

/-- The value piece of the last pair whose key piece is `k`, if any — the
binding that survives duplicate-key insertion. -/
def lastPairVal (k : String) : List (List Char) → Option (List Char)
  | [] => none
  | p :: rest =>
    match lastPairVal k rest with
    | some v => some v
    | none => if String.mk (pairKey p) = k then some (pairVal p) else none

/-- `lastPairVal` over already-separated key and value lists. -/
def lastKeyed (k : String) : List (List Char) → List (List Char) → Option (List Char)
  | k' :: ks, v :: vs =>
    match lastKeyed k ks vs with
    | some w => some w
    | none => if String.mk k' = k then some v else none
  | _, _ => none

/-- The element parse a supported array element / map value type applies to
one piece, as an optional tagged value (`none` exactly when the element parse
fails, which the code `unwrap`s into a panic). -/
def elemParseVal? (inner : String) (p : List Char) : Option ABIParam :=
  match inner with
  | "bool" => ((parseBoolStr p).toOption).map ABIParam.Bool
  | "str" => some (.Str (String.mk p))
  | "string" => some (.Str (String.mk p))
  | "i8" => ((parseIntStr (-128) 127 p).toOption).map ABIParam.I8
  | "u8" => ((parseUIntStr 255 p).toOption).map ABIParam.U8
  | "i16" => ((parseIntStr (-32768) 32767 p).toOption).map ABIParam.I16
  | "u16" => ((parseUIntStr 65535 p).toOption).map ABIParam.U16
  | "i32" => ((parseIntStr (-(2 ^ 31)) (2 ^ 31 - 1) p).toOption).map ABIParam.I32
  | "u32" => ((parseUIntStr (2 ^ 32 - 1) p).toOption).map ABIParam.U32
  | "i64" => ((parseIntStr (-(2 ^ 63)) (2 ^ 63 - 1) p).toOption).map ABIParam.I64
  | "u64" => ((parseUIntStr (2 ^ 64 - 1) p).toOption).map ABIParam.U64
  | "i128" => ((parseIntStr (-(2 ^ 127)) (2 ^ 127 - 1) p).toOption).map ABIParam.I128
  | "u128" => ((parseUIntStr (2 ^ 128 - 1) p).toOption).map ABIParam.U128
  | _ => none

/-- The binding stored under key `k` in a parsed map value, tagged as the
corresponding scalar value. -/
def mapLookup? (a : ABIParam) (k : String) : Option ABIParam :=
  match a with
  | .StrBoolMap l => (List.lookup k l).map ABIParam.Bool
  | .StrStrMap l => (List.lookup k l).map ABIParam.Str
  | .StrI8Map l => (List.lookup k l).map ABIParam.I8
  | .StrU8Map l => (List.lookup k l).map ABIParam.U8
  | .StrI16Map l => (List.lookup k l).map ABIParam.I16
  | .StrU16Map l => (List.lookup k l).map ABIParam.U16
  | .StrI32Map l => (List.lookup k l).map ABIParam.I32
  | .StrU32Map l => (List.lookup k l).map ABIParam.U32
  | .StrI64Map l => (List.lookup k l).map ABIParam.I64
  | .StrU64Map l => (List.lookup k l).map ABIParam.U64
  | .StrI128Map l => (List.lookup k l).map ABIParam.I128
  | .StrU128Map l => (List.lookup k l).map ABIParam.U128
  | _ => none

/-! ## Theorems -/

/-- Head step of `List.lookup` at the stored key. -/
theorem lookup_cons_self {β : Type} (k : String) (b : β) (l : List (String × β)) :
    List.lookup k ((k, b) :: l) = some b := by
  simp [List.lookup_cons]

/-- Head step of `List.lookup` at a different key. -/
theorem lookup_cons_ne {β : Type} {q a : String} (h : q ≠ a) (b : β)
    (l : List (String × β)) : List.lookup q ((a, b) :: l) = List.lookup q l := by
  simp [List.lookup_cons, beq_eq_false_iff_ne.mpr h]

/-- Replacing every binding of key `k` in place updates what `lookup k`
returns, when a binding exists. -/
theorem lookup_map_replace_self {β : Type} (k : String) (v : β) :
    ∀ acc : List (String × β),
      List.lookup k (acc.map (fun p => if p.1 = k then (k, v) else p)) =
        (List.lookup k acc).map (fun _ => v)
  | [] => rfl
  | (a, b) :: acc => by
    by_cases ha : a = k
    · subst ha
      rw [List.map_cons, if_pos rfl, lookup_cons_self, lookup_cons_self]
      rfl
    · rw [List.map_cons, if_neg ha, lookup_cons_ne (Ne.symm ha),
        lookup_cons_ne (Ne.symm ha), lookup_map_replace_self k v acc]

/-- Replacing bindings of key `k` does not change `lookup` at another key. -/
theorem lookup_map_replace_ne {β : Type} {q k : String} (hne : q ≠ k) (v : β) :
    ∀ acc : List (String × β),
      List.lookup q (acc.map (fun p => if p.1 = k then (k, v) else p)) =
        List.lookup q acc
  | [] => rfl
  | (a, b) :: acc => by
    by_cases ha : a = k
    · subst ha
      rw [List.map_cons, if_pos rfl, lookup_cons_ne hne, lookup_cons_ne hne,
        lookup_map_replace_ne hne v acc]
    · rw [List.map_cons, if_neg ha]
      by_cases hqa : q = a
      · subst hqa
        rw [lookup_cons_self, lookup_cons_self]
      · rw [lookup_cons_ne hqa, lookup_cons_ne hqa,
          lookup_map_replace_ne hne v acc]

/-- Appending a binding for an absent key makes `lookup` find it. -/
theorem lookup_append_right {β : Type} (k : String) (v : β) :
    ∀ acc : List (String × β), List.lookup k acc = none →
      List.lookup k (acc ++ [(k, v)]) = some v
  | [], _ => by simp [lookup_cons_self]
  | (a, b) :: acc, h => by
    by_cases hka : k = a
    · subst hka
      rw [lookup_cons_self] at h
      cases h
    · rw [lookup_cons_ne hka] at h
      rw [List.cons_append, lookup_cons_ne hka]
      exact lookup_append_right k v acc h

/-- Appending a binding for key `k` does not change `lookup` at another key. -/
theorem lookup_append_ne {β : Type} {q k : String} (hne : q ≠ k) (v : β) :
    ∀ acc : List (String × β), List.lookup q (acc ++ [(k, v)]) = List.lookup q acc
  | [] => by
    rw [List.nil_append, lookup_cons_ne hne]
  | (a, b) :: acc => by
    by_cases hqa : q = a
    · subst hqa
      rw [List.cons_append, lookup_cons_self, lookup_cons_self]
    · rw [List.cons_append, lookup_cons_ne hqa, lookup_cons_ne hqa]
      exact lookup_append_ne hne v acc

/-- A key reported absent by `any` cannot be looked up. -/
theorem lookup_eq_none_of_not_any {β : Type} (k : String) :
    ∀ acc : List (String × β), acc.any (fun p => p.1 = k) = false →
      List.lookup k acc = none
  | [], _ => rfl
  | (a, b) :: acc, h => by
    simp only [List.any_cons, Bool.or_eq_false_iff] at h
    have hka : (k == a) = false := by
      have : a ≠ k := by simpa using h.1
      exact beq_eq_false_iff_ne.mpr (Ne.symm this)
    simp only [List.lookup, hka]
    exact lookup_eq_none_of_not_any k acc h.2

/-- A key reported present by `any` can be looked up. -/
theorem exists_lookup_of_any {β : Type} (k : String) :
    ∀ acc : List (String × β), acc.any (fun p => p.1 = k) = true →
      ∃ b, List.lookup k acc = some b
  | (a, b) :: acc, h => by
    by_cases hka : a = k
    · subst hka
      exact ⟨b, by simp [List.lookup]⟩
    · have h' : acc.any (fun p => p.1 = k) = true := by
        simp only [List.any_cons, Bool.or_eq_true] at h
        rcases h with h | h
        · exact absurd (by simpa using h) hka
        · exact h
      have hk : (k == a) = false := beq_eq_false_iff_ne.mpr (Ne.symm hka)
      obtain ⟨c, hc⟩ := exists_lookup_of_any k acc h'
      exact ⟨c, by simp [List.lookup, hk, hc]⟩

/-- `HashMap::insert` semantics: after inserting `(k, v)`, looking up `k`
yields `v`. -/
theorem lookup_mapInsert_self {β : Type} (k : String) (v : β)
    (acc : List (String × β)) : List.lookup k (mapInsert acc k v) = some v := by
  unfold mapInsert
  by_cases h : acc.any (fun p => p.1 = k) = true
  · rw [if_pos h, lookup_map_replace_self]
    obtain ⟨b, hb⟩ := exists_lookup_of_any k acc h
    rw [hb]
    rfl
  · rw [if_neg h]
    have h' : acc.any (fun p => p.1 = k) = false := by
      simp only [Bool.not_eq_true] at h
      exact h
    exact lookup_append_right k v acc (lookup_eq_none_of_not_any k acc h')

/-- `HashMap::insert` semantics: inserting under `k` leaves other keys'
bindings unchanged. -/
theorem lookup_mapInsert_ne {β : Type} {q k : String} (hne : q ≠ k) (v : β)
    (acc : List (String × β)) :
    List.lookup q (mapInsert acc k v) = List.lookup q acc := by
  unfold mapInsert
  by_cases h : acc.any (fun p => p.1 = k) = true
  · rw [if_pos h, lookup_map_replace_ne hne]
  · rw [if_neg h, lookup_append_ne hne]

/-- The map entry loop with every value parsing: the result is an association
list whose binding for each key is the parsed value of the LAST entry carrying
that key (earlier duplicates are overwritten), and absent keys fall back to
the accumulator. -/
theorem mapEntries_lookup {β : Type} (pe : List Char → Except String β) :
    ∀ (ks vs : List (List Char)) (acc : List (String × β)),
      ks.length = vs.length →
      (∀ v ∈ vs, (pe v).isOk = true) →
      ∃ l, mapEntries pe acc ks vs = .ok l ∧
        ∀ k : String, List.lookup k l =
          match lastKeyed k ks vs with
          | some w => (pe w).toOption
          | none => List.lookup k acc
  | [], [], acc, _, _ => ⟨acc, rfl, fun k => rfl⟩
  | [], v :: vs, acc, hlen, _ => by simp at hlen
  | k' :: ks, [], acc, hlen, _ => by simp at hlen
  | k' :: ks, v :: vs, acc, hlen, hok => by
    have hv : (pe v).isOk = true := hok v (by simp)
    cases hpe : pe v with
    | error e =>
      rw [hpe] at hv
      simp [Except.isOk, Except.toBool] at hv
    | ok x =>
      obtain ⟨l, hl, hlk⟩ := mapEntries_lookup pe ks vs
        (mapInsert acc (String.mk k') x) (by simpa using hlen)
        (fun w hw => hok w (List.mem_cons_of_mem _ hw))
      refine ⟨l, ?_, ?_⟩
      · simp only [mapEntries, hpe, hl]
      · intro k
        rw [hlk k]
        cases hlast : lastKeyed k ks vs with
        | some w => simp only [lastKeyed, hlast]
        | none =>
          simp only [lastKeyed, hlast]
          by_cases hk : String.mk k' = k
          · rw [if_pos hk, hk, lookup_mapInsert_self]
            show some x = (pe v).toOption
            rw [hpe]
            rfl
          · rw [if_neg hk, lookup_mapInsert_ne (fun he => hk he.symm)]

/-- The map entry loop panics when any value fails its parse (the first
failing value's `Result` is `unwrap`ped). -/
theorem mapEntries_panic_of_bad {β : Type} (pe : List Char → Except String β) :
    ∀ (ks vs : List (List Char)) (acc : List (String × β)),
      ks.length = vs.length →
      (∃ v ∈ vs, (pe v).isOk = false) →
      mapEntries pe acc ks vs = .panic
  | [], [], _, _, h => by simp at h
  | [], v :: vs, _, hlen, _ => by simp at hlen
  | k' :: ks, [], _, _, h => by simp at h
  | k' :: ks, v :: vs, acc, hlen, h => by
    cases hpe : pe v with
    | error e => simp only [mapEntries, hpe]
    | ok x =>
      have hvs : ∃ w ∈ vs, (pe w).isOk = false := by
        rcases h with ⟨w, hw, hbad⟩
        rcases List.mem_cons.mp hw with rfl | hw'
        · rw [hpe] at hbad
          simp [Except.isOk, Except.toBool] at hbad
        · exact ⟨w, hw', hbad⟩
      simp only [mapEntries, hpe,
        mapEntries_panic_of_bad pe ks vs (mapInsert acc (String.mk k') x)
          (by simpa using hlen) hvs]

/-- When every comma-piece splits into at least two `:`-pieces, collection
succeeds and keeps exactly the first piece as key and the second as value. -/
theorem collectPairs_ok_of_wf :
    ∀ ps : List (List Char), (∀ p ∈ ps, 2 ≤ (splitOnChar ':' p).length) →
      collectPairs ps = .ok (ps.map pairKey, ps.map pairVal)
  | [], _ => rfl
  | p :: ps, h => by
    have hp := h p (List.mem_cons_self _ _)
    cases hs : splitOnChar ':' p with
    | nil => rw [hs] at hp; simp at hp
    | cons k t =>
      cases t with
      | nil => rw [hs] at hp; simp at hp
      | cons v rest =>
        have ih := collectPairs_ok_of_wf ps (fun q hq => h q (List.mem_cons_of_mem _ hq))
        simp only [collectPairs, hs, ih, List.map_cons, pairKey, pairVal]

/-- `lastPairVal` agrees with `lastKeyed` over the separated projections. -/
theorem lastKeyed_map_pair (k : String) :
    ∀ ps : List (List Char),
      lastKeyed k (ps.map pairKey) (ps.map pairVal) = lastPairVal k ps
  | [] => rfl
  | p :: ps => by
    simp only [List.map_cons, lastKeyed, lastPairVal, lastKeyed_map_pair k ps]

/-- The map branch of the parser for every map-shaped type descriptor (one
starting with `\x7b`, holding a `:` at index `sep`, with an in-range value
slice): the token is split into pairs whose collection either aborts with the
invalid-map-entry error or feeds the sliced value type name. -/
theorem itap_map_shape (t tok : String) (hhead : t.toList.head? = some '\x7b')
    (sep : Nat) (hsep : List.findIdx? (fun c => c = ':') t.toList = some sep)
    (hlen : sep + 1 ≤ t.toList.length - 1) :
    input_type_to_abi_param t tok =
      match collectPairs (splitOnChar ',' tok.toList) with
      | .error e => .err e
      | .ok (ks, vs) =>
        mapBranch (String.mk ((t.toList.drop (sep + 1)).take (t.toList.length - 1 - (sep + 1)))) ks vs := by
  unfold input_type_to_abi_param
  split
  all_goals try (exfalso; revert hhead; decide)
  show (if t.toList.head? = some '[' then
      match strSliceL t.toList 1 (t.toList.length - 1) with
      | none => PResult.panic
      | some inner => arrayBranch (String.mk inner) (splitOnChar ',' tok.toList)
    else if t.toList.head? = some '\x7b' then
      match List.findIdx? (fun c => decide (c = ':')) t.toList with
      | none => PResult.err "not supported map param type"
      | some sep2 =>
        match strSliceL t.toList (sep2 + 1) (t.toList.length - 1) with
        | none => PResult.panic
        | some inner =>
          match collectPairs (splitOnChar ',' tok.toList) with
          | .error e => PResult.err e
          | .ok (ks, vs) => mapBranch (String.mk inner) ks vs
    else PResult.err ("not supported abi param type " ++ t)) = _
  rw [hhead, if_neg (by decide), if_pos rfl, hsep]
  show (match strSliceL t.toList (sep + 1) (t.toList.length - 1) with
    | none => PResult.panic
    | some inner =>
      match collectPairs (splitOnChar ',' tok.toList) with
      | .error e => PResult.err e
      | .ok (ks, vs) => mapBranch (String.mk inner) ks vs) = _
  unfold strSliceL
  rw [if_pos ⟨hlen, Nat.sub_le _ _⟩]

/-- C1 counterexample: the claim says an out-of-range integer element of an
array token makes the whole call return a parse error and that the function
never panics; on the type `[u8]` with token `"256"` the code panics
(`Result::unwrap` on the element's parse error) — the same token that yields
a returned error under the scalar descriptor `u8`. -/
theorem array_element_parse_error_panics :
    input_type_to_abi_param "[u8]" "256" = .panic ∧
    input_type_to_abi_param "u8" "256" = .err "number too large to fit in target type" := by
  exact ⟨rfl, rfl⟩

/-- A lifted scalar parse outcome is a value or a returned error, never a
panic. -/
theorem liftE_ne_panic {β : Type} (r : Except String β) (mk : β → ABIParam) :
    liftE r mk ≠ .panic := by
  cases r <;> simp [liftE]

/-- If any comma-piece fails the element parser, the array element loop
panics (on the first such piece). -/
theorem arrayElems_panic_of_bad {β : Type} (pe : List Char → Except String β) :
    ∀ ps : List (List Char), (∃ p ∈ ps, (pe p).isOk = false) →
      arrayElems pe ps = .panic
  | [], h => by simp at h
  | x :: xs, h => by
    cases hx : pe x with
    | error e => simp only [arrayElems, hx]
    | ok v =>
      have hxs : ∃ p ∈ xs, (pe p).isOk = false := by
        rcases h with ⟨p, hp, hbad⟩
        rcases List.mem_cons.mp hp with rfl | hp'
        · rw [hx] at hbad
          simp [Except.isOk, Except.toBool] at hbad
        · exact ⟨p, hp', hbad⟩
      simp only [arrayElems, hx, arrayElems_panic_of_bad pe xs hxs]

/-- A lifted element outcome that is `none` is exactly a failed element
parse. -/
theorem except_toOption_map_eq_none {β γ : Type} (r : Except String β)
    (f : β → γ) : ((r.toOption).map f = none) ↔ r.isOk = false := by
  cases r <;> simp [Except.toOption, Except.isOk, Except.toBool]

/-- A failed scalar parse is returned as an error by the lifted scalar
path. -/
theorem liftE_err_of_not_ok {β : Type} (r : Except String β)
    (mk : β → ABIParam) (h : r.isOk = false) : ∃ e, liftE r mk = .err e := by
  cases r with
  | error e => exact ⟨e, rfl⟩
  | ok v => simp [Except.isOk, Except.toBool] at h

/-- A panicking element loop makes the lifted branch panic. -/
theorem liftP_panic_of {β : Type} {r : PResult β} (mk : β → ABIParam)
    (h : r = .panic) : liftP r mk = .panic := by
  rw [h]
  rfl

/-- C1 amended: for every scalar type descriptor and token, the parser never
panics — it returns a typed value or a returned parse error (a scalar
integer token that fails its parse yields a returned error). But for
every supported array element type that can fail (`bool` and the ten integer
widths), a token any of whose comma-split elements fails its element parse
makes the whole call panic on the `unwrap`ped parse result instead of
returning the error; and for every such map value type, a token whose pairs
are well formed but any of whose pair values fails its value parse likewise
makes the whole call panic. No partial value is returned in any case. -/
theorem scalar_paths_total_array_elements_panic :
    (∀ s : String,
      input_type_to_abi_param "bool" s ≠ .panic ∧
      input_type_to_abi_param "str" s ≠ .panic ∧
      input_type_to_abi_param "string" s ≠ .panic ∧
      input_type_to_abi_param "parampack" s ≠ .panic ∧
      input_type_to_abi_param "u8" s ≠ .panic ∧
      input_type_to_abi_param "i8" s ≠ .panic ∧
      input_type_to_abi_param "u16" s ≠ .panic ∧
      input_type_to_abi_param "i16" s ≠ .panic ∧
      input_type_to_abi_param "u32" s ≠ .panic ∧
      input_type_to_abi_param "i32" s ≠ .panic ∧
      input_type_to_abi_param "u64" s ≠ .panic ∧
      input_type_to_abi_param "i64" s ≠ .panic ∧
      input_type_to_abi_param "u128" s ≠ .panic ∧
      input_type_to_abi_param "i128" s ≠ .panic) ∧
    (∀ name ∈ ["u8", "i8", "u16", "i16", "u32", "i32", "u64", "i64", "u128", "i128"],
      ∀ s : String, elemParseVal? name s.toList = none →
        ∃ e, input_type_to_abi_param name s = .err e) ∧
    (∀ inner ∈ ["bool", "u8", "i8", "u16", "i16", "u32", "i32", "u64", "i64", "u128", "i128"],
      ∀ s : String,
        (∃ p ∈ splitOnChar ',' s.toList, elemParseVal? inner p = none) →
        input_type_to_abi_param ("[" ++ inner ++ "]") s = .panic) ∧
    (∀ inner ∈ ["bool", "u8", "i8", "u16", "i16", "u32", "i32", "u64", "i64", "u128", "i128"],
      ∀ s : String,
        (∀ p ∈ splitOnChar ',' s.toList, 2 ≤ (splitOnChar ':' p).length) →
        (∃ p ∈ splitOnChar ',' s.toList, elemParseVal? inner (pairVal p) = none) →
        input_type_to_abi_param ("\x7bstr:" ++ inner ++ "\x7d") s = .panic) := by
  refine ⟨fun s => ?_, fun name hname s h => ?_, fun inner hin s h => ?_,
    fun inner hin s hwf h => ?_⟩
  · refine ⟨by simp [input_type_to_abi_param], by simp [input_type_to_abi_param],
      by simp [input_type_to_abi_param], ?_, ?_, ?_, ?_, ?_, ?_, ?_, ?_, ?_, ?_, ?_⟩ <;>
      exact liftE_ne_panic _ _
  · fin_cases hname <;>
      exact liftE_err_of_not_ok _ _ ((except_toOption_map_eq_none _ _).mp h)
  · fin_cases hin <;>
      (obtain ⟨p, hp, hn⟩ := h
       exact liftP_panic_of _ (arrayElems_panic_of_bad _ _
        ⟨p, hp, (except_toOption_map_eq_none _ _).mp hn⟩))
  · fin_cases hin
    · obtain ⟨p, hp, hn⟩ := h
      show input_type_to_abi_param "\x7bstr:bool\x7d" s = .panic
      rw [itap_map_shape "\x7bstr:bool\x7d" s (by decide) 4 (by decide) (by decide),
        collectPairs_ok_of_wf _ hwf]
      exact liftP_panic_of _ (mapEntries_panic_of_bad _ _ _ _ (by simp)
        ⟨pairVal p, List.mem_map_of_mem _ hp,
          (except_toOption_map_eq_none _ _).mp hn⟩)
    · obtain ⟨p, hp, hn⟩ := h
      show input_type_to_abi_param "\x7bstr:u8\x7d" s = .panic
      rw [itap_map_shape "\x7bstr:u8\x7d" s (by decide) 4 (by decide) (by decide),
        collectPairs_ok_of_wf _ hwf]
      exact liftP_panic_of _ (mapEntries_panic_of_bad _ _ _ _ (by simp)
        ⟨pairVal p, List.mem_map_of_mem _ hp,
          (except_toOption_map_eq_none _ _).mp hn⟩)
    · obtain ⟨p, hp, hn⟩ := h
      show input_type_to_abi_param "\x7bstr:i8\x7d" s = .panic
      rw [itap_map_shape "\x7bstr:i8\x7d" s (by decide) 4 (by decide) (by decide),
        collectPairs_ok_of_wf _ hwf]
      exact liftP_panic_of _ (mapEntries_panic_of_bad _ _ _ _ (by simp)
        ⟨pairVal p, List.mem_map_of_mem _ hp,
          (except_toOption_map_eq_none _ _).mp hn⟩)
    · obtain ⟨p, hp, hn⟩ := h
      show input_type_to_abi_param "\x7bstr:u16\x7d" s = .panic
      rw [itap_map_shape "\x7bstr:u16\x7d" s (by decide) 4 (by decide) (by decide),
        collectPairs_ok_of_wf _ hwf]
      exact liftP_panic_of _ (mapEntries_panic_of_bad _ _ _ _ (by simp)
        ⟨pairVal p, List.mem_map_of_mem _ hp,
          (except_toOption_map_eq_none _ _).mp hn⟩)
    · obtain ⟨p, hp, hn⟩ := h
      show input_type_to_abi_param "\x7bstr:i16\x7d" s = .panic
      rw [itap_map_shape "\x7bstr:i16\x7d" s (by decide) 4 (by decide) (by decide),
        collectPairs_ok_of_wf _ hwf]
      exact liftP_panic_of _ (mapEntries_panic_of_bad _ _ _ _ (by simp)
        ⟨pairVal p, List.mem_map_of_mem _ hp,
          (except_toOption_map_eq_none _ _).mp hn⟩)
    · obtain ⟨p, hp, hn⟩ := h
      show input_type_to_abi_param "\x7bstr:u32\x7d" s = .panic
      rw [itap_map_shape "\x7bstr:u32\x7d" s (by decide) 4 (by decide) (by decide),
        collectPairs_ok_of_wf _ hwf]
      exact liftP_panic_of _ (mapEntries_panic_of_bad _ _ _ _ (by simp)
        ⟨pairVal p, List.mem_map_of_mem _ hp,
          (except_toOption_map_eq_none _ _).mp hn⟩)
    · obtain ⟨p, hp, hn⟩ := h
      show input_type_to_abi_param "\x7bstr:i32\x7d" s = .panic
      rw [itap_map_shape "\x7bstr:i32\x7d" s (by decide) 4 (by decide) (by decide),
        collectPairs_ok_of_wf _ hwf]
      exact liftP_panic_of _ (mapEntries_panic_of_bad _ _ _ _ (by simp)
        ⟨pairVal p, List.mem_map_of_mem _ hp,
          (except_toOption_map_eq_none _ _).mp hn⟩)
    · obtain ⟨p, hp, hn⟩ := h
      show input_type_to_abi_param "\x7bstr:u64\x7d" s = .panic
      rw [itap_map_shape "\x7bstr:u64\x7d" s (by decide) 4 (by decide) (by decide),
        collectPairs_ok_of_wf _ hwf]
      exact liftP_panic_of _ (mapEntries_panic_of_bad _ _ _ _ (by simp)
        ⟨pairVal p, List.mem_map_of_mem _ hp,
          (except_toOption_map_eq_none _ _).mp hn⟩)
    · obtain ⟨p, hp, hn⟩ := h
      show input_type_to_abi_param "\x7bstr:i64\x7d" s = .panic
      rw [itap_map_shape "\x7bstr:i64\x7d" s (by decide) 4 (by decide) (by decide),
        collectPairs_ok_of_wf _ hwf]
      exact liftP_panic_of _ (mapEntries_panic_of_bad _ _ _ _ (by simp)
        ⟨pairVal p, List.mem_map_of_mem _ hp,
          (except_toOption_map_eq_none _ _).mp hn⟩)
    · obtain ⟨p, hp, hn⟩ := h
      show input_type_to_abi_param "\x7bstr:u128\x7d" s = .panic
      rw [itap_map_shape "\x7bstr:u128\x7d" s (by decide) 4 (by decide) (by decide),
        collectPairs_ok_of_wf _ hwf]
      exact liftP_panic_of _ (mapEntries_panic_of_bad _ _ _ _ (by simp)
        ⟨pairVal p, List.mem_map_of_mem _ hp,
          (except_toOption_map_eq_none _ _).mp hn⟩)
    · obtain ⟨p, hp, hn⟩ := h
      show input_type_to_abi_param "\x7bstr:i128\x7d" s = .panic
      rw [itap_map_shape "\x7bstr:i128\x7d" s (by decide) 4 (by decide) (by decide),
        collectPairs_ok_of_wf _ hwf]
      exact liftP_panic_of _ (mapEntries_panic_of_bad _ _ _ _ (by simp)
        ⟨pairVal p, List.mem_map_of_mem _ hp,
          (except_toOption_map_eq_none _ _).mp hn⟩)

/-- Witness for C1\'s amended claim at the scalar token `"256"`, the array
token `"1,256"` and the map token `"a:256"`. -/
theorem scalar_paths_total_array_elements_panic_witness :
    (∃ e, input_type_to_abi_param "u8" "256" = .err e) ∧
    input_type_to_abi_param "[u8]" "1,256" = .panic ∧
    input_type_to_abi_param "\x7bstr:u8\x7d" "a:256" = .panic :=
  ⟨scalar_paths_total_array_elements_panic.2.1 "u8" (by decide) "256" rfl,
    scalar_paths_total_array_elements_panic.2.2.1 "u8" (by decide) "1,256" (by decide),
    scalar_paths_total_array_elements_panic.2.2.2 "u8" (by decide) "a:256"
      (by decide) (by decide)⟩

/-- C3: `encode_params` on a token list whose length differs from the declared
input count returns the arity-mismatch error (and hence no bytes); no
parameter is parsed or encoded. -/
theorem encode_params_arity_mismatch (enc : ABIParam → List Nat)
    (m : IRContractMethodMeta) (toks : List String)
    (h : m.inputs.length ≠ toks.length) :
    m.encode_params enc toks = .err "params count not match" := by
  simp [IRContractMethodMeta.encode_params, h]

/-- Witness for C3 at a method with no inputs and one supplied token. -/
theorem encode_params_arity_mismatch_witness :
    IRContractMethodMeta.encode_params (fun _ => [])
      ⟨"f", "function", [], []⟩ ["x"] = .err "params count not match" :=
  encode_params_arity_mismatch (fun _ => []) ⟨"f", "function", [], []⟩ ["x"] (by decide)

/-- C10: the one-character type name `[` (sliced as `[1..0]`) and the
two-character type name `\x7b:` (value substring `[2..1]`) make the parser
panic on an out-of-range slice for every token, and `encode_params` on a
method declaring such an input type aborts likewise. -/
theorem malformed_type_name_slicing_panics :
    ∀ (s : String) (enc : ABIParam → List Nat),
      input_type_to_abi_param "[" s = .panic ∧
      input_type_to_abi_param "\x7b:" s = .panic ∧
      IRContractMethodMeta.encode_params enc
        ⟨"m", "function", [⟨"", "["⟩], []⟩ [s] = .panic := by
  intro s enc
  exact ⟨rfl, rfl, rfl⟩

/-- When every (input, token) pair parses to the matching typed value, the
encoding loop returns exactly the concatenation of the values' encodings in
order. -/
theorem encodeLoop_eq_flatten (enc : ABIParam → List Nat)
    {pairs : List (IRContractMethodInputMeta × String)} {vals : List ABIParam}
    (h : List.Forall₂ (fun p v => input_type_to_abi_param p.1.type p.2 = .ok v)
      pairs vals) :
    encodeLoop enc pairs = .ok ((vals.map enc).flatten) := by
  induction h with
  | nil => rfl
  | cons h₁ h₂ ih =>
    rename_i p v ps vs
    obtain ⟨inp, s⟩ := p
    simp only [encodeLoop, h₁, ih, List.map_cons, List.flatten_cons]

/-- C2: on a token list of matching length whose per-parameter parses all
succeed, `encode_params` returns the single version byte `0x00` followed by
the concatenation of each parameter's external byte encoding, in declaration
order, with nothing in between. -/
theorem encode_params_version_prefix_concat (enc : ABIParam → List Nat)
    (m : IRContractMethodMeta) (toks : List String) (vals : List ABIParam)
    (hlen : m.inputs.length = toks.length)
    (hparse : List.Forall₂ (fun p v => input_type_to_abi_param p.1.type p.2 = .ok v)
      (m.inputs.zip toks) vals) :
    m.encode_params enc toks = .ok (0x00 :: (vals.map enc).flatten) := by
  simp [IRContractMethodMeta.encode_params, hlen, encodeLoop_eq_flatten enc hparse]

/-- Witness for C2 at a two-parameter method. -/
theorem encode_params_version_prefix_concat_witness :
    IRContractMethodMeta.encode_params (fun v => [match v with | .U8 n => n | _ => 9])
      ⟨"m", "function", [⟨"", "u8"⟩, ⟨"", "bool"⟩], []⟩ ["7", "true"] = .ok [0, 7, 9] :=
  encode_params_version_prefix_concat (fun v => [match v with | .U8 n => n | _ => 9])
    ⟨"m", "function", [⟨"", "u8"⟩, ⟨"", "bool"⟩], []⟩ ["7", "true"]
    [ABIParam.U8 7, ABIParam.Bool true] (by decide)
    (.cons (by decide) (.cons (by decide) .nil))

/-- Every comma-split piece that is exactly `true` or `false` is accepted by
the strict element parser, yielding the corresponding boolean list. -/
theorem arrayElems_bool_ok (ps : List (List Char))
    (h : ∀ p ∈ ps, p = "true".toList ∨ p = "false".toList) :
    arrayElems parseBoolStr ps = .ok (ps.map (fun p => p == "true".toList)) := by
  induction ps with
  | nil => rfl
  | cons x xs ih =>
    have hxs := ih (fun p hp => h p (List.mem_cons_of_mem _ hp))
    rcases h x (List.mem_cons_self _ _) with hx | hx <;> subst hx <;>
      simp only [arrayElems, hxs] <;> rfl

/-- A comma-split piece that is neither `true` nor `false` makes the
array-of-bool element loop panic (the element parse error is `unwrap`ped). -/
theorem arrayElems_bool_panic (ps : List (List Char))
    (h : ∃ p ∈ ps, p ≠ "true".toList ∧ p ≠ "false".toList) :
    arrayElems parseBoolStr ps = .panic := by
  induction ps with
  | nil => simp at h
  | cons x xs ih =>
    by_cases hx : x ≠ "true".toList ∧ x ≠ "false".toList
    · simp only [arrayElems, parseBoolStr, if_neg hx.1, if_neg hx.2]
    · have hxs : ∃ p ∈ xs, p ≠ "true".toList ∧ p ≠ "false".toList := by
        rcases h with ⟨p, hp, hbad⟩
        rcases List.mem_cons.mp hp with rfl | hp'
        · exact absurd hbad hx
        · exact ⟨p, hp', hbad⟩
      rcases not_and_or.mp hx with hx' | hx' <;> rw [not_not] at hx' <;>
        subst hx' <;> simp only [arrayElems, ih hxs] <;> rfl

/-- C4 counterexample: the claim says a comma-split piece of an array-of-bool
token that is not `"true"` yields the element `false`; on the piece `"x"` the
code instead panics (`bool::from_str` is strict and its error is
`unwrap`ped), so the token does not yield `BoolArray [false]`. -/
theorem bool_array_piece_not_permissive_cex :
    input_type_to_abi_param "[bool]" "x" = .panic ∧
    input_type_to_abi_param "[bool]" "x" ≠ .ok (ABIParam.BoolArray [false]) := by
  exact ⟨rfl, by decide⟩

/-- C4 amended: the scalar `bool` descriptor is permissive — `"true"` yields
`true` and any other token yields `false`, never an error; but the
array-of-bool descriptor parses each comma-split piece strictly: pieces
`"true"` and `"false"` yield the corresponding elements, and a token with any
other piece panics instead of yielding `false`. -/
theorem bool_scalar_permissive_array_strict :
    (∀ s : String, input_type_to_abi_param "bool" s = .ok (.Bool (s == "true"))) ∧
    (∀ s : String,
      (∀ p ∈ splitOnChar ',' s.toList, p = "true".toList ∨ p = "false".toList) →
      input_type_to_abi_param "[bool]" s =
        .ok (.BoolArray ((splitOnChar ',' s.toList).map (fun p => p == "true".toList)))) ∧
    (∀ s : String,
      (∃ p ∈ splitOnChar ',' s.toList, p ≠ "true".toList ∧ p ≠ "false".toList) →
      input_type_to_abi_param "[bool]" s = .panic) := by
  refine ⟨fun s => rfl, fun s h => ?_, fun s h => ?_⟩
  · show liftP (arrayElems parseBoolStr (splitOnChar ',' s.toList)) ABIParam.BoolArray = _
    rw [arrayElems_bool_ok _ h]
    rfl
  · show liftP (arrayElems parseBoolStr (splitOnChar ',' s.toList)) ABIParam.BoolArray = _
    rw [arrayElems_bool_panic _ h]
    rfl

/-- Witness for C4's amended claim at the token `"true,false"`. -/
theorem bool_scalar_permissive_array_strict_witness :
    input_type_to_abi_param "[bool]" "true,false" =
      .ok (.BoolArray [true, false]) :=
  bool_scalar_permissive_array_strict.2.1 "true,false" (by decide)

/-- A comma-piece with fewer than two `:`-separated pieces makes the pair
collection fail with the invalid-map-entry error, whichever pair it is. -/
theorem collectPairs_short_pair (ps : List (List Char))
    (h : ∃ p ∈ ps, (splitOnChar ':' p).length < 2) :
    collectPairs ps = .error "invalid map entry, expected k1:v1,k2:v2,..." := by
  induction ps with
  | nil => simp at h
  | cons x xs ih =>
    cases hs : splitOnChar ':' x with
    | nil => simp only [collectPairs, hs]
    | cons k t =>
      cases t with
      | nil => simp only [collectPairs, hs]
      | cons v rest =>
        have hxs : ∃ p ∈ xs, (splitOnChar ':' p).length < 2 := by
          rcases h with ⟨p, hp, hlen⟩
          rcases List.mem_cons.mp hp with rfl | hp'
          · rw [hs] at hlen
            simp only [List.length_cons] at hlen
            omega
          · exact ⟨p, hp', hlen⟩
        simp only [collectPairs, hs, ih hxs]

/-- The map branch of the parser for value type `u8`, with the type-name
slicing already reduced: the token's pairs are collected, an invalid pair
aborts with the invalid-map-entry error, and valid pairs are inserted in
order. -/
theorem itap_map_u8_bridge (tok : String) :
    input_type_to_abi_param "\x7bstr:u8\x7d" tok =
      match collectPairs (splitOnChar ',' tok.toList) with
      | .error e => .err e
      | .ok (ks, vs) => mapBranch "u8" ks vs := rfl

/-- A present lifted element value is exactly a successful element parse. -/
theorem except_toOption_map_isSome {β γ : Type} (r : Except String β)
    (f : β → γ) : ((r.toOption).map f).isSome = true ↔ r.isOk = true := by
  cases r <;> simp [Except.toOption, Except.isOk, Except.toBool]

/-- A successful element loop makes the lifted branch return the tagged
value. -/
theorem liftP_ok_of {β : Type} {r : PResult β} {v : β} (mk : β → ABIParam)
    (h : r = .ok v) : liftP r mk = .ok (mk v) := by
  rw [h]
  rfl

/-- The shared shape of every map value branch: when all pair values parse,
the branch returns a map whose binding for each key is the parsed value piece
of the last pair carrying that key. -/
theorem map_branch_lookup {β : Type} (pe : List Char → Except String β)
    (mkv : β → ABIParam) (mkm : List (String × β) → ABIParam)
    (ps : List (List Char)) (ev : List Char → Option ABIParam)
    (hev : ∀ p, ev p = ((pe p).toOption).map mkv)
    (hlook : ∀ (l : List (String × β)) (k : String),
      mapLookup? (mkm l) k = (List.lookup k l).map mkv)
    (hok : ∀ p ∈ ps, (ev (pairVal p)).isSome = true) :
    ∃ l, mapEntries pe [] (ps.map pairKey) (ps.map pairVal) = .ok l ∧
      ∀ k : String, mapLookup? (mkm l) k = (lastPairVal k ps).bind ev := by
  have hok2 : ∀ v ∈ ps.map pairVal, (pe v).isOk = true := by
    intro v hv
    obtain ⟨p, hp, rfl⟩ := List.mem_map.mp hv
    have h := hok p hp
    rw [hev] at h
    exact (except_toOption_map_isSome _ _).mp h
  obtain ⟨l, hl, hlk⟩ :=
    mapEntries_lookup pe (ps.map pairKey) (ps.map pairVal) [] (by simp) hok2
  refine ⟨l, hl, fun k => ?_⟩
  rw [hlook, hlk k]
  cases hlast : lastKeyed k (ps.map pairKey) (ps.map pairVal) with
  | some w =>
    rw [lastKeyed_map_pair k ps] at hlast
    rw [hlast]
    show ((pe w).toOption).map mkv = (some w).bind ev
    rw [Option.some_bind, hev]
  | none =>
    rw [lastKeyed_map_pair k ps] at hlast
    rw [hlast]
    rfl

/-- C5: for every map-shaped type descriptor and every token, the token is
split on `,` into pairs and each pair on `:`; any pair with fewer than two
`:`-pieces aborts the whole call with the invalid-map-entry error; only each
pair\'s first two pieces matter (two tokens whose pairs agree on first and
second pieces parse identically, so pieces after the second are ignored); for
every supported value type, when all pair values parse, the result binds each
key to the parsed value of the LAST pair with that key (a later duplicate
wins); and concretely `"a:1,b:2"` at value type `u8` yields the map
`a↦1, b↦2`, `"a:1:zz"` yields `a↦1`, `"a:1,a:2"` yields `a↦2`, and
`"a:1,b"` fails. -/
theorem map_token_pair_semantics :
    (∀ t : String, t.toList.head? = some '\x7b' →
      ∀ sep : Nat, List.findIdx? (fun c => c = ':') t.toList = some sep →
      sep + 1 ≤ t.toList.length - 1 →
      ∀ tok : String,
        (∃ p ∈ splitOnChar ',' tok.toList, (splitOnChar ':' p).length < 2) →
        input_type_to_abi_param t tok =
          .err "invalid map entry, expected k1:v1,k2:v2,...") ∧
    (∀ t : String, t.toList.head? = some '\x7b' →
      ∀ sep : Nat, List.findIdx? (fun c => c = ':') t.toList = some sep →
      sep + 1 ≤ t.toList.length - 1 →
      ∀ tok tok2 : String,
        (∀ p ∈ splitOnChar ',' tok.toList, 2 ≤ (splitOnChar ':' p).length) →
        (∀ p ∈ splitOnChar ',' tok2.toList, 2 ≤ (splitOnChar ':' p).length) →
        (splitOnChar ',' tok.toList).map pairKey =
          (splitOnChar ',' tok2.toList).map pairKey →
        (splitOnChar ',' tok.toList).map pairVal =
          (splitOnChar ',' tok2.toList).map pairVal →
        input_type_to_abi_param t tok = input_type_to_abi_param t tok2) ∧
    (∀ inner ∈ ["bool", "str", "string", "u8", "i8", "u16", "i16", "u32", "i32",
        "u64", "i64", "u128", "i128"],
      ∀ tok : String,
        (∀ p ∈ splitOnChar ',' tok.toList, 2 ≤ (splitOnChar ':' p).length) →
        (∀ p ∈ splitOnChar ',' tok.toList,
          (elemParseVal? inner (pairVal p)).isSome = true) →
        ∃ a, input_type_to_abi_param ("\x7bstr:" ++ inner ++ "\x7d") tok = .ok a ∧
          ∀ k : String, mapLookup? a k =
            (lastPairVal k (splitOnChar ',' tok.toList)).bind (elemParseVal? inner)) ∧
    input_type_to_abi_param "\x7bstr:u8\x7d" "a:1,b:2" =
      .ok (.StrU8Map [("a", 1), ("b", 2)]) ∧
    input_type_to_abi_param "\x7bstr:u8\x7d" "a:1:zz" = .ok (.StrU8Map [("a", 1)]) ∧
    input_type_to_abi_param "\x7bstr:u8\x7d" "a:1,a:2" = .ok (.StrU8Map [("a", 2)]) ∧
    input_type_to_abi_param "\x7bstr:u8\x7d" "a:1,b" =
      .err "invalid map entry, expected k1:v1,k2:v2,..." := by
  refine ⟨fun t hhead sep hsep hlen tok h => ?_,
    fun t hhead sep hsep hlen tok tok2 hwf hwf2 hks hvs => ?_,
    fun inner hin tok hwf hvals => ?_, rfl, rfl, rfl, rfl⟩
  · rw [itap_map_shape t tok hhead sep hsep hlen, collectPairs_short_pair _ h]
  · rw [itap_map_shape t tok hhead sep hsep hlen,
      itap_map_shape t tok2 hhead sep hsep hlen,
      collectPairs_ok_of_wf _ hwf, collectPairs_ok_of_wf _ hwf2, hks, hvs]
  · fin_cases hin
    · obtain ⟨l, hl, hlk⟩ := map_branch_lookup parseBoolStr ABIParam.Bool ABIParam.StrBoolMap
        (splitOnChar ',' tok.toList) (elemParseVal? "bool") (fun p => rfl)
        (fun l k => rfl) hvals
      refine ⟨ABIParam.StrBoolMap l, ?_, hlk⟩
      show input_type_to_abi_param "\x7bstr:bool\x7d" tok = .ok (ABIParam.StrBoolMap l)
      rw [itap_map_shape "\x7bstr:bool\x7d" tok (by decide) 4 (by decide) (by decide),
        collectPairs_ok_of_wf _ hwf]
      exact liftP_ok_of _ hl
    · obtain ⟨l, hl, hlk⟩ := map_branch_lookup (fun l => (Except.ok (String.mk l) : Except String String)) ABIParam.Str ABIParam.StrStrMap
        (splitOnChar ',' tok.toList) (elemParseVal? "str") (fun p => rfl)
        (fun l k => rfl) hvals
      refine ⟨ABIParam.StrStrMap l, ?_, hlk⟩
      show input_type_to_abi_param "\x7bstr:str\x7d" tok = .ok (ABIParam.StrStrMap l)
      rw [itap_map_shape "\x7bstr:str\x7d" tok (by decide) 4 (by decide) (by decide),
        collectPairs_ok_of_wf _ hwf]
      exact liftP_ok_of _ hl
    · obtain ⟨l, hl, hlk⟩ := map_branch_lookup (fun l => (Except.ok (String.mk l) : Except String String)) ABIParam.Str ABIParam.StrStrMap
        (splitOnChar ',' tok.toList) (elemParseVal? "string") (fun p => rfl)
        (fun l k => rfl) hvals
      refine ⟨ABIParam.StrStrMap l, ?_, hlk⟩
      show input_type_to_abi_param "\x7bstr:string\x7d" tok = .ok (ABIParam.StrStrMap l)
      rw [itap_map_shape "\x7bstr:string\x7d" tok (by decide) 4 (by decide) (by decide),
        collectPairs_ok_of_wf _ hwf]
      exact liftP_ok_of _ hl
    · obtain ⟨l, hl, hlk⟩ := map_branch_lookup (parseUIntStr 255) ABIParam.U8 ABIParam.StrU8Map
        (splitOnChar ',' tok.toList) (elemParseVal? "u8") (fun p => rfl)
        (fun l k => rfl) hvals
      refine ⟨ABIParam.StrU8Map l, ?_, hlk⟩
      show input_type_to_abi_param "\x7bstr:u8\x7d" tok = .ok (ABIParam.StrU8Map l)
      rw [itap_map_shape "\x7bstr:u8\x7d" tok (by decide) 4 (by decide) (by decide),
        collectPairs_ok_of_wf _ hwf]
      exact liftP_ok_of _ hl
    · obtain ⟨l, hl, hlk⟩ := map_branch_lookup (parseIntStr (-128) 127) ABIParam.I8 ABIParam.StrI8Map
        (splitOnChar ',' tok.toList) (elemParseVal? "i8") (fun p => rfl)
        (fun l k => rfl) hvals
      refine ⟨ABIParam.StrI8Map l, ?_, hlk⟩
      show input_type_to_abi_param "\x7bstr:i8\x7d" tok = .ok (ABIParam.StrI8Map l)
      rw [itap_map_shape "\x7bstr:i8\x7d" tok (by decide) 4 (by decide) (by decide),
        collectPairs_ok_of_wf _ hwf]
      exact liftP_ok_of _ hl
    · obtain ⟨l, hl, hlk⟩ := map_branch_lookup (parseUIntStr 65535) ABIParam.U16 ABIParam.StrU16Map
        (splitOnChar ',' tok.toList) (elemParseVal? "u16") (fun p => rfl)
        (fun l k => rfl) hvals
      refine ⟨ABIParam.StrU16Map l, ?_, hlk⟩
      show input_type_to_abi_param "\x7bstr:u16\x7d" tok = .ok (ABIParam.StrU16Map l)
      rw [itap_map_shape "\x7bstr:u16\x7d" tok (by decide) 4 (by decide) (by decide),
        collectPairs_ok_of_wf _ hwf]
      exact liftP_ok_of _ hl
    · obtain ⟨l, hl, hlk⟩ := map_branch_lookup (parseIntStr (-32768) 32767) ABIParam.I16 ABIParam.StrI16Map
        (splitOnChar ',' tok.toList) (elemParseVal? "i16") (fun p => rfl)
        (fun l k => rfl) hvals
      refine ⟨ABIParam.StrI16Map l, ?_, hlk⟩
      show input_type_to_abi_param "\x7bstr:i16\x7d" tok = .ok (ABIParam.StrI16Map l)
      rw [itap_map_shape "\x7bstr:i16\x7d" tok (by decide) 4 (by decide) (by decide),
        collectPairs_ok_of_wf _ hwf]
      exact liftP_ok_of _ hl
    · obtain ⟨l, hl, hlk⟩ := map_branch_lookup (parseUIntStr (2 ^ 32 - 1)) ABIParam.U32 ABIParam.StrU32Map
        (splitOnChar ',' tok.toList) (elemParseVal? "u32") (fun p => rfl)
        (fun l k => rfl) hvals
      refine ⟨ABIParam.StrU32Map l, ?_, hlk⟩
      show input_type_to_abi_param "\x7bstr:u32\x7d" tok = .ok (ABIParam.StrU32Map l)
      rw [itap_map_shape "\x7bstr:u32\x7d" tok (by decide) 4 (by decide) (by decide),
        collectPairs_ok_of_wf _ hwf]
      exact liftP_ok_of _ hl
    · obtain ⟨l, hl, hlk⟩ := map_branch_lookup (parseIntStr (-(2 ^ 31)) (2 ^ 31 - 1)) ABIParam.I32 ABIParam.StrI32Map
        (splitOnChar ',' tok.toList) (elemParseVal? "i32") (fun p => rfl)
        (fun l k => rfl) hvals
      refine ⟨ABIParam.StrI32Map l, ?_, hlk⟩
      show input_type_to_abi_param "\x7bstr:i32\x7d" tok = .ok (ABIParam.StrI32Map l)
      rw [itap_map_shape "\x7bstr:i32\x7d" tok (by decide) 4 (by decide) (by decide),
        collectPairs_ok_of_wf _ hwf]
      exact liftP_ok_of _ hl
    · obtain ⟨l, hl, hlk⟩ := map_branch_lookup (parseUIntStr (2 ^ 64 - 1)) ABIParam.U64 ABIParam.StrU64Map
        (splitOnChar ',' tok.toList) (elemParseVal? "u64") (fun p => rfl)
        (fun l k => rfl) hvals
      refine ⟨ABIParam.StrU64Map l, ?_, hlk⟩
      show input_type_to_abi_param "\x7bstr:u64\x7d" tok = .ok (ABIParam.StrU64Map l)
      rw [itap_map_shape "\x7bstr:u64\x7d" tok (by decide) 4 (by decide) (by decide),
        collectPairs_ok_of_wf _ hwf]
      exact liftP_ok_of _ hl
    · obtain ⟨l, hl, hlk⟩ := map_branch_lookup (parseIntStr (-(2 ^ 63)) (2 ^ 63 - 1)) ABIParam.I64 ABIParam.StrI64Map
        (splitOnChar ',' tok.toList) (elemParseVal? "i64") (fun p => rfl)
        (fun l k => rfl) hvals
      refine ⟨ABIParam.StrI64Map l, ?_, hlk⟩
      show input_type_to_abi_param "\x7bstr:i64\x7d" tok = .ok (ABIParam.StrI64Map l)
      rw [itap_map_shape "\x7bstr:i64\x7d" tok (by decide) 4 (by decide) (by decide),
        collectPairs_ok_of_wf _ hwf]
      exact liftP_ok_of _ hl
    · obtain ⟨l, hl, hlk⟩ := map_branch_lookup (parseUIntStr (2 ^ 128 - 1)) ABIParam.U128 ABIParam.StrU128Map
        (splitOnChar ',' tok.toList) (elemParseVal? "u128") (fun p => rfl)
        (fun l k => rfl) hvals
      refine ⟨ABIParam.StrU128Map l, ?_, hlk⟩
      show input_type_to_abi_param "\x7bstr:u128\x7d" tok = .ok (ABIParam.StrU128Map l)
      rw [itap_map_shape "\x7bstr:u128\x7d" tok (by decide) 4 (by decide) (by decide),
        collectPairs_ok_of_wf _ hwf]
      exact liftP_ok_of _ hl
    · obtain ⟨l, hl, hlk⟩ := map_branch_lookup (parseIntStr (-(2 ^ 127)) (2 ^ 127 - 1)) ABIParam.I128 ABIParam.StrI128Map
        (splitOnChar ',' tok.toList) (elemParseVal? "i128") (fun p => rfl)
        (fun l k => rfl) hvals
      refine ⟨ABIParam.StrI128Map l, ?_, hlk⟩
      show input_type_to_abi_param "\x7bstr:i128\x7d" tok = .ok (ABIParam.StrI128Map l)
      rw [itap_map_shape "\x7bstr:i128\x7d" tok (by decide) 4 (by decide) (by decide),
        collectPairs_ok_of_wf _ hwf]
      exact liftP_ok_of _ hl

/-- Witness for C5: the failing token `"a:1,b"` under the descriptor
`\x7bstr:u8\x7d`, and the duplicate-key token `"a:1,a:2"` whose parsed map
binds `"a"` to the later value `2`. -/
theorem map_token_pair_semantics_witness :
    input_type_to_abi_param "\x7bstr:u8\x7d" "a:1,b" =
      .err "invalid map entry, expected k1:v1,k2:v2,..." ∧
    ∃ a, input_type_to_abi_param "\x7bstr:u8\x7d" "a:1,a:2" = .ok a ∧
      mapLookup? a "a" = some (ABIParam.U8 2) := by
  constructor
  · exact map_token_pair_semantics.1 "\x7bstr:u8\x7d" (by decide) 4 (by decide)
      (by decide) "a:1,b" (by decide)
  · obtain ⟨a, ha, hlk⟩ := map_token_pair_semantics.2.2.1 "u8" (by decide)
      "a:1,a:2" (by decide) (by decide)
    refine ⟨a, ha, ?_⟩
    rw [hlk "a"]
    decide

/-- A character that does not occur in a list has no last index in it. -/
theorem lastIdxOf_eq_none {c : Char} : ∀ {l : List Char}, c ∉ l → lastIdxOf c l = none
  | [], _ => rfl
  | x :: xs, h => by
    have h' : ¬(c = x ∨ c ∈ xs) := fun hm => h (List.mem_cons.mpr hm)
    rw [not_or] at h'
    simp only [lastIdxOf, lastIdxOf_eq_none h'.2]
    rw [if_neg (fun he : x = c => h'.1 he.symm)]

/-- The last index of `c` in `l₁ ++ c :: l₂` with `c ∉ l₂` is `l₁.length`. -/
theorem lastIdxOf_append (c : Char) (l₂ : List Char) (h₂ : c ∉ l₂) :
    ∀ l₁ : List Char, lastIdxOf c (l₁ ++ c :: l₂) = some l₁.length
  | [] => by
    simp [lastIdxOf, lastIdxOf_eq_none h₂]
  | x :: l₁ => by
    have ih := lastIdxOf_append c l₂ h₂ l₁
    simp [lastIdxOf, ih]

/-- A qualified name without a `.` is its own derived method name. -/
theorem abiNameOf_of_no_dot (s : String) (h : '.' ∉ s.toList) : abiNameOf s = s := by
  unfold abiNameOf
  rw [lastIdxOf_eq_none h]

/-- The derived method name of `pre ++ "." ++ suf` with dot-free `suf` is
`suf`: the name is the substring after the last `.`. -/
theorem abiNameOf_append (pre suf : String) (h : '.' ∉ suf.toList) :
    abiNameOf (pre ++ "." ++ suf) = suf := by
  have hl : (pre ++ "." ++ suf).toList = pre.toList ++ '.' :: suf.toList := by
    simp only [String.toList, String.data_append, List.append_assoc]
    rfl
  unfold abiNameOf
  rw [hl, lastIdxOf_append '.' suf.toList h pre.toList]
  show String.mk ((pre.toList ++ '.' :: suf.toList).drop (pre.toList.length + 1)) = suf
  have hsplit : pre.toList ++ '.' :: suf.toList = (pre.toList ++ ['.']) ++ suf.toList := by
    simp
  rw [hsplit, show pre.toList.length + 1 = (pre.toList ++ ['.']).length by simp,
    List.drop_left]
  rfl

/-- C6: `from_contract` stamps the current schema version and builds one
method per function; the method name is the substring after the last `.` of
the qualified name (the whole name if it has no `.`); the kind is
`"constructor"` exactly when the derived name is `"init"` and `"function"`
otherwise; a void return yields zero outputs and a non-void return exactly
one, carrying the return type's textual representation; and a function table
with the single function `"Foo.init"` (no parameters, void return) yields the
method `name="init", kind=constructor, inputs=[], outputs=[]`. -/
theorem from_contract_method_derivation :
    (∀ c : Contract,
      (IRContractABIMeta.from_contract c).abi_version = CURRENT_IR_ABI_VERSION ∧
      (IRContractABIMeta.from_contract c).methods =
        c.functions.map (fun p => methodOfFunc p.1 p.2)) ∧
    (∀ (qn : String) (fd : FunctionDef), '.' ∉ qn.toList →
      (methodOfFunc qn fd).name = qn) ∧
    (∀ (pre suf : String) (fd : FunctionDef), '.' ∉ suf.toList →
      (methodOfFunc (pre ++ "." ++ suf) fd).name = suf) ∧
    (∀ (qn : String) (fd : FunctionDef),
      ((methodOfFunc qn fd).type = "constructor" ↔ (methodOfFunc qn fd).name = "init") ∧
      ((methodOfFunc qn fd).type = "function" ↔ (methodOfFunc qn fd).name ≠ "init")) ∧
    (∀ (qn : String) (fd : FunctionDef),
      (fd.ret.is_void = true → (methodOfFunc qn fd).outputs = []) ∧
      (fd.ret.is_void = false → (methodOfFunc qn fd).outputs = [⟨fd.ret.type_str⟩])) ∧
    IRContractABIMeta.from_contract ⟨[("Foo.init", ⟨[], ⟨true, "void"⟩⟩)]⟩ =
      ⟨1, [⟨"init", "constructor", [], []⟩]⟩ := by
  refine ⟨fun c => ⟨rfl, rfl⟩, fun qn fd h => ?_, fun pre suf fd h => ?_,
    fun qn fd => ?_, fun qn fd => ⟨fun h => ?_, fun h => ?_⟩, ?_⟩
  · simp [methodOfFunc, abiNameOf_of_no_dot qn h]
  · simp [methodOfFunc, abiNameOf_append pre suf h]
  · simp only [methodOfFunc]
    by_cases h : abiNameOf qn = "init" <;> simp [h]
  · simp [methodOfFunc, h]
  · simp [methodOfFunc, h]
  · rfl

/-- Witness for C6 name derivation at the qualified name `"Foo.init"`. -/
theorem from_contract_method_derivation_witness :
    (methodOfFunc ("Foo" ++ "." ++ "init") ⟨[], ⟨true, "void"⟩⟩).name = "init" :=
  from_contract_method_derivation.2.2.1 "Foo" "init" ⟨[], ⟨true, "void"⟩⟩ (by decide)

/-- Decoding a list built by an element serializer recovers the list whenever
the element codec round-trips. -/
theorem decodeList_map {α : Type} (f : Json → Option α) (g : α → Json)
    (hfg : ∀ a, f (g a) = some a) : ∀ l : List α, decodeList f (l.map g) = some l
  | [] => rfl
  | x :: xs => by
    simp only [List.map_cons, decodeList, hfg x, decodeList_map f g hfg xs]

/-- Input metas round-trip through their JSON form. -/
theorem inputFromJson_roundtrip (i : IRContractMethodInputMeta) :
    inputFromJson? (inputToJson i) = some i := rfl

/-- Output metas round-trip through their JSON form. -/
theorem outputFromJson_roundtrip (o : IRContractMethodOutputMeta) :
    outputFromJson? (outputToJson o) = some o := rfl

/-- Method metas round-trip through their JSON form. -/
theorem methodFromJson_roundtrip (m : IRContractMethodMeta) :
    methodFromJson? (methodToJson m) = some m := by
  simp [methodToJson, methodFromJson?, jField,
    decodeList_map inputFromJson? inputToJson inputFromJson_roundtrip,
    decodeList_map outputFromJson? outputToJson outputFromJson_roundtrip]

/-- `from_json` returns exactly the value the deserialization succeeds with. -/
theorem from_json_of_decode (j : Json) (m : IRContractABIMeta)
    (hm : metaFromJson? j = some m) : IRContractABIMeta.from_json j = .ok m := by
  unfold IRContractABIMeta.from_json
  rw [hm]

/-- C7: deserializing the serialized form of any constructed metadata value
returns a value equal to it in every field of the data model (`abi_version`
and each method's name, kind, inputs and outputs). The `u16` bound on
`abi_version` is the hypothesis the Rust type carries for free. -/
theorem to_json_from_json_roundtrip (m : IRContractABIMeta)
    (h : m.abi_version < 65536) :
    IRContractABIMeta.from_json (IRContractABIMeta.to_json m) = .ok m := by
  have hrange : (0 : Int) ≤ (m.abi_version : Int) ∧ (m.abi_version : Int) < 65536 := by
    constructor
    · exact Int.ofNat_nonneg _
    · exact_mod_cast h
  refine from_json_of_decode _ m ?_
  show (if (0 : Int) ≤ (m.abi_version : Int) ∧ (m.abi_version : Int) < 65536 then
      match decodeList methodFromJson? (m.methods.map methodToJson) with
      | some ms2 => some (IRContractABIMeta.mk (Int.toNat (m.abi_version : Int)) ms2)
      | none => none
    else none) = some m
  rw [if_pos hrange, decodeList_map methodFromJson? methodToJson methodFromJson_roundtrip]
  simp

/-- Witness for C7 at a one-method metadata value. -/
theorem to_json_from_json_roundtrip_witness :
    IRContractABIMeta.from_json
      (IRContractABIMeta.to_json ⟨1, [⟨"init", "constructor", [], []⟩]⟩) =
      .ok ⟨1, [⟨"init", "constructor", [], []⟩]⟩ :=
  to_json_from_json_roundtrip ⟨1, [⟨"init", "constructor", [], []⟩]⟩ (by decide)

/-- `find?` over method names returns the first match: the found method's
name matches and every method stored before it has a different name. -/
theorem find?_name_first (n : String) :
    ∀ (l : List IRContractMethodMeta) (m : IRContractMethodMeta),
      l.find? (fun m' => m'.name == n) = some m →
      m.name = n ∧ ∃ l₁ l₂, l = l₁ ++ m :: l₂ ∧ ∀ m' ∈ l₁, m'.name ≠ n
  | [], m, h => by simp [List.find?] at h
  | x :: xs, m, h => by
    simp only [List.find?] at h
    by_cases hx : x.name == n
    · simp only [hx] at h
      obtain rfl : x = m := by injection h
      exact ⟨by simpa using hx, [], xs, rfl, by simp⟩
    · rw [Bool.not_eq_true] at hx
      simp only [hx] at h
      obtain ⟨hname, l₁, l₂, hl, hfirst⟩ := find?_name_first n xs m h
      refine ⟨hname, x :: l₁, l₂, by rw [hl, List.cons_append], ?_⟩
      intro m' hm'
      rcases List.mem_cons.mp hm' with rfl | hm''
      · simpa using hx
      · exact hfirst m' hm''

/-- C8: `get_method` linearly scans the stored methods and returns the first
whose name matches (so when two methods share a name, the later one is never
returned), and returns nothing exactly when no stored method matches. -/
theorem get_method_first_match :
    (∀ (meta : IRContractABIMeta) (n : String) (m : IRContractMethodMeta),
      meta.get_method n = some m →
      m.name = n ∧ ∃ l₁ l₂, meta.methods = l₁ ++ m :: l₂ ∧ ∀ m' ∈ l₁, m'.name ≠ n) ∧
    (∀ (meta : IRContractABIMeta) (n : String),
      meta.get_method n = none ↔ ∀ m ∈ meta.methods, m.name ≠ n) ∧
    (∀ (v : Nat) (m₁ m₂ : IRContractMethodMeta), m₁.name = "x" → m₂.name = "x" →
      IRContractABIMeta.get_method ⟨v, [m₁, m₂]⟩ "x" = some m₁) := by
  refine ⟨fun meta n m h => find?_name_first n meta.methods m h,
    fun meta n => ?_, fun v m₁ m₂ h₁ h₂ => ?_⟩
  · rw [IRContractABIMeta.get_method, List.find?_eq_none]
    constructor
    · intro hall m hm
      simpa using hall m hm
    · intro hall m hm
      simpa using hall m hm
  · simp [IRContractABIMeta.get_method, List.find?, h₁]

/-- Witness for C8 at a metadata value with two methods both named `"x"`. -/
theorem get_method_first_match_witness :
    IRContractABIMeta.get_method
      ⟨1, [⟨"x", "function", [], []⟩, ⟨"x", "constructor", [], []⟩]⟩ "x" =
      some ⟨"x", "function", [], []⟩ :=
  get_method_first_match.2.2 1 ⟨"x", "function", [], []⟩ ⟨"x", "constructor", [], []⟩
    rfl rfl

/-- C9 counterexample: the claim says malformed input makes `from_json`
return an error with no other failure mode; on the malformed input `null`
the code instead panics (`serde_json::from_slice(..).unwrap()`), and its
signature offers the caller no error value at all. -/
theorem from_json_malformed_panic_cex :
    IRContractABIMeta.from_json Json.null = .panic := rfl

/-- C9 amended: `from_json` on any malformed input aborts by panicking on the
`unwrap`ped deserialization error rather than returning an error value, and a
value is returned only for well-formed input that decodes completely — no
partial metadata is ever produced. -/
theorem from_json_malformed_aborts :
    (∀ j : Json, metaFromJson? j = none → IRContractABIMeta.from_json j = .panic) ∧
    (∀ (j : Json) (m : IRContractABIMeta),
      IRContractABIMeta.from_json j = .ok m → metaFromJson? j = some m) := by
  constructor
  · intro j h
    simp [IRContractABIMeta.from_json, h]
  · intro j m h
    unfold IRContractABIMeta.from_json at h
    cases hj : metaFromJson? j with
    | none =>
      rw [hj] at h
      exact absurd h (by simp)
    | some m' =>
      rw [hj] at h
      injection h with h'
      rw [h']

/-- Witness for C9's amended claim at the malformed input `true`. -/
theorem from_json_malformed_aborts_witness :
    IRContractABIMeta.from_json (Json.bool true) = .panic :=
  from_json_malformed_aborts.1 (Json.bool true) rfl

end Abi
